import Mathlib

/-!
Verification of the `MultilingualMixin` translation store from
`app/models/base.py` of the forsa-ai repository.

The mixin stores, per named field of an entity, an optional mapping from
language code to text (a Python dict, hence insertion-ordered).  We embed a
Python dict as an association list in insertion order: assignment replaces an
existing key in place and appends a fresh key at the end, exactly the
observable dict semantics.  An entity carries its translatable fields plus the
orthogonal attributes (UUID id, audit timestamps, soft-delete tombstone) that
the mixin's operations must not touch.  Each operation is embedded in
state-passing style `input → result × Entity` so that purity and frame
properties are real theorems about the embedding, with `Except` modelling the
`ValueError` raises of the source.
-/

/-- A Python value passed as the `value` argument of `set_translation`:
either a `str` or some non-string value, which is all the
`isinstance(value, str)` check in the source can observe. -/
inductive PyValue where
  | str (s : String)
  | nonStr
deriving DecidableEq, Repr

/-- The error kinds raised by the mixin, one per distinct `ValueError`
message in the source. -/
inductive PyError where
  | fieldNotFound (field_name : String)
  | unsupportedLanguage (lang : String)
  | invalidValue
deriving DecidableEq, Repr

/-- A field's translation mapping: a Python dict from language code to text,
embedded as an insertion-ordered association list. -/
def Translations : Type := List (String × String)

instance : DecidableEq Translations :=
  inferInstanceAs (DecidableEq (List (String × String)))

instance : Repr Translations :=
  inferInstanceAs (Repr (List (String × String)))

/-- Dict lookup `d[k]` / membership `k in d`: the value at the first (unique)
occurrence of the key. -/
def dictGet? (d : Translations) (k : String) : Option String :=
  match d with
  | [] => none
  | (k0, v0) :: rest => if k0 = k then some v0 else dictGet? rest k

/-- Dict assignment `d[k] = v`: replace in place if the key is present,
else append at the end, preserving insertion order. -/
def dictSet (d : Translations) (k v : String) : Translations :=
  match d with
  | [] => [(k, v)]
  | (k0, v0) :: rest => if k0 = k then (k, v) :: rest else (k0, v0) :: dictSet rest k v

/-- The keys of a dict, in insertion order (`list(d.keys())`). -/
def dictKeys (d : Translations) : List String :=
  d.map Prod.fst

/-- The values of a dict, in insertion order (`list(d.values())`). -/
def dictValues (d : Translations) : List String :=
  d.map Prod.snd

/-- An entity using the mixin: its translatable fields (each holding an
optional dict, `None` until first written), plus the orthogonal attributes
contributed by `BaseModel`, `TimestampMixin` and `SoftDeleteMixin`. -/
structure Entity where
  attrs : List (String × Option Translations)
  id : String
  created_at : Nat
  updated_at : Nat
  is_deleted : Bool
  deleted_at : Option Nat
deriving DecidableEq, Repr

/-- Attribute lookup: `none` models `hasattr(self, field_name)` being false;
`some c` models `getattr(self, field_name)` returning `c`. -/
def lookupAttr (a : List (String × Option Translations)) (f : String) :
    Option (Option Translations) :=
  match a with
  | [] => none
  | (g, c) :: rest => if g = f then some c else lookupAttr rest f

/-- `setattr(self, f, d)`: overwrite the (existing) attribute `f` with the
dict `d`, leaving every other attribute in place. -/
def updateAttr (a : List (String × Option Translations)) (f : String)
    (d : Translations) : List (String × Option Translations) :=
  match a with
  | [] => []
  | (g, c) :: rest => if g = f then (f, some d) :: rest else (g, c) :: updateAttr rest f d

/-- `MultilingualMixin.SUPPORTED_LANGUAGES`. -/
def SUPPORTED_LANGUAGES : List String := ["en", "fa", "ar", "tr"]

/-- `MultilingualMixin.DEFAULT_LANGUAGE`. -/
def DEFAULT_LANGUAGE : String := "en"

/-- `MultilingualMixin.RTL_LANGUAGES`. -/
def RTL_LANGUAGES : List String := ["fa", "ar"]

/-- `MultilingualMixin.get_translation(field_name, lang, fallback)` in
state-passing form.  Mirrors the source: raise `ValueError` if the field is
unknown; return `None` if the mapping is absent or empty (`if not content`);
else the requested language, else the fallback language, else the first value
of the dict (`next(iter(content.values()))`). -/
def get_translation_st (e : Entity) (field_name lang fallback : String) :
    Except PyError (Option String) × Entity :=
  match lookupAttr e.attrs field_name with
  | none => (Except.error (PyError.fieldNotFound field_name), e)
  | some content =>
    let d := content.getD []
    if d.isEmpty then (Except.ok none, e)
    else if (dictGet? d lang).isSome then (Except.ok (dictGet? d lang), e)
    else if (dictGet? d fallback).isSome then (Except.ok (dictGet? d fallback), e)
    else (Except.ok (d.head?.map Prod.snd), e)

/-- `MultilingualMixin.set_translation(field_name, lang, value)` in
state-passing form.  Mirrors the source's validation order — unknown field,
then unsupported language, then non-string value, each raising `ValueError`
with the state untouched — then initialises an absent mapping to `{}` and
assigns `current_content[lang] = value`. -/
def set_translation_st (e : Entity) (field_name lang : String) (value : PyValue) :
    Except PyError Unit × Entity :=
  match lookupAttr e.attrs field_name with
  | none => (Except.error (PyError.fieldNotFound field_name), e)
  | some current =>
    if lang ∈ SUPPORTED_LANGUAGES then
      match value with
      | PyValue.nonStr => (Except.error PyError.invalidValue, e)
      | PyValue.str s =>
        let cur := current.getD []
        (Except.ok (), { e with attrs := updateAttr e.attrs field_name (dictSet cur lang s) })
    else (Except.error (PyError.unsupportedLanguage lang), e)

/-- `MultilingualMixin.get_supported_languages(field_name)` in state-passing
form: raise if the field is unknown, else `list(content.keys())` for a
present mapping and `[]` for an absent or empty one. -/
def get_supported_languages_st (e : Entity) (field_name : String) :
    Except PyError (List String) × Entity :=
  match lookupAttr e.attrs field_name with
  | none => (Except.error (PyError.fieldNotFound field_name), e)
  | some content =>
    match content with
    | none => (Except.ok [], e)
    | some d => if d.isEmpty then (Except.ok [], e) else (Except.ok (dictKeys d), e)

/-- `MultilingualMixin.is_rtl_language(lang)`: membership of `lang` in
`RTL_LANGUAGES`. -/
def is_rtl_language (lang : String) : Bool :=
  lang ∈ RTL_LANGUAGES

/-- One call to the mixin's API, for reasoning about operation sequences. -/
inductive Op where
  | setOp (field_name lang : String) (value : PyValue)
  | getOp (field_name lang fallback : String)
  | langsOp (field_name : String)
deriving DecidableEq, Repr

/-- The entity state after one API call (errors leave the state as it was). -/
def applyOp (e : Entity) : Op → Entity
  | Op.setOp f lang v => (set_translation_st e f lang v).2
  | Op.getOp f lang fb => (get_translation_st e f lang fb).2
  | Op.langsOp f => (get_supported_languages_st e f).2

/-- The entity state after a sequence of API calls. -/
def runOps (e : Entity) : List Op → Entity
  | [] => e
  | op :: ops => runOps (applyOp e op) ops

/-- The supported-key invariant for one field of an entity: whenever the
field holds a mapping, every key of that mapping is a supported language. -/
def fieldKeysSupported (e : Entity) (f : String) : Prop :=
  ∀ d, lookupAttr e.attrs f = some (some d) → ∀ k ∈ dictKeys d, k ∈ SUPPORTED_LANGUAGES

/-- A sample entity with one translatable field, still unwritten (`None`). -/
def e0 : Entity :=
  Entity.mk [("title_i18n", none)] "id-0" 0 0 false none

/-- A sample entity with a populated field and a second, unwritten field. -/
def e1 : Entity :=
  Entity.mk [("title_i18n", some [("en", "A"), ("fa", "B")]), ("desc_i18n", none)]
    "id-1" 1 2 false none

/-! ### Helper lemmas shared by the claim theorems -/

lemma dictGet?_dictSet_self (d : Translations) (k v : String) :
    dictGet? (dictSet d k v) k = some v := by
  induction d with
  | nil => simp [dictSet, dictGet?]
  | cons p rest ih =>
    obtain ⟨k0, v0⟩ := p
    by_cases hk : k0 = k
    · simp [dictSet, dictGet?, hk]
    · simp [dictSet, dictGet?, hk, ih]

lemma dictSet_ne_nil (d : Translations) (k v : String) : dictSet d k v ≠ [] := by
  cases d with
  | nil => simp [dictSet]
  | cons p rest =>
    obtain ⟨k0, v0⟩ := p
    by_cases hk : k0 = k <;> simp [dictSet, hk]

lemma mem_dictKeys_dictSet (d : Translations) (k v k0 : String)
    (h : k0 ∈ dictKeys (dictSet d k v)) : k0 ∈ dictKeys d ∨ k0 = k := by
  induction d with
  | nil => simp [dictSet, dictKeys] at h; simp [h]
  | cons p rest ih =>
    obtain ⟨k1, v1⟩ := p
    by_cases hk : k1 = k
    · simp [dictSet, dictKeys, hk] at h
      rcases h with h | h
      · simp [dictKeys, h]
      · exact Or.inl (by simp [dictKeys]; exact Or.inr h)
    · simp [dictSet, dictKeys, hk] at h
      rcases h with h | h
      · exact Or.inl (by simp [dictKeys, h])
      · rcases ih (by simpa [dictKeys] using h) with h2 | h2
        · exact Or.inl (by simp [dictKeys] at h2 ⊢; exact Or.inr h2)
        · exact Or.inr h2

lemma dictSet_head_key (d : Translations) (k v : String) (h : d ≠ []) :
    (dictSet d k v).head?.map Prod.fst = d.head?.map Prod.fst := by
  cases d with
  | nil => exact absurd rfl h
  | cons p rest =>
    obtain ⟨k0, v0⟩ := p
    by_cases hk : k0 = k <;> simp [dictSet, hk]

lemma lookupAttr_updateAttr_self (a : List (String × Option Translations))
    (f : String) (d : Translations) (c : Option Translations)
    (h : lookupAttr a f = some c) :
    lookupAttr (updateAttr a f d) f = some (some d) := by
  induction a with
  | nil => simp [lookupAttr] at h
  | cons p rest ih =>
    obtain ⟨g, c0⟩ := p
    by_cases hg : g = f
    · simp [updateAttr, lookupAttr, hg]
    · simp [updateAttr, lookupAttr, hg] at h ⊢
      exact ih h

lemma lookupAttr_updateAttr_ne (a : List (String × Option Translations))
    (f g : String) (d : Translations) (hg : g ≠ f) :
    lookupAttr (updateAttr a f d) g = lookupAttr a g := by
  induction a with
  | nil => rfl
  | cons p rest ih =>
    obtain ⟨k, c0⟩ := p
    by_cases hk : k = f
    · subst hk
      have hkg : ¬(k = g) := fun h => hg h.symm
      simp [updateAttr, lookupAttr, hkg]
    · by_cases hkg : k = g
      · subst hkg
        simp [updateAttr, lookupAttr, hk]
      · simp [updateAttr, lookupAttr, hk, hkg, ih]

lemma get_translation_st_snd (e : Entity) (f lang fb : String) :
    (get_translation_st e f lang fb).2 = e := by
  unfold get_translation_st
  cases lookupAttr e.attrs f with
  | none => rfl
  | some content =>
    dsimp only
    split_ifs <;> rfl

lemma get_supported_languages_st_snd (e : Entity) (f : String) :
    (get_supported_languages_st e f).2 = e := by
  unfold get_supported_languages_st
  cases lookupAttr e.attrs f with
  | none => rfl
  | some content =>
    cases content with
    | none => rfl
    | some d =>
      dsimp only
      split_ifs <;> rfl

lemma set_translation_st_ok (e e2 : Entity) (f lang : String) (v : PyValue)
    (h : set_translation_st e f lang v = (Except.ok (), e2)) :
    ∃ current s, lookupAttr e.attrs f = some current ∧ lang ∈ SUPPORTED_LANGUAGES ∧
      v = PyValue.str s ∧
      e2 = { e with attrs := updateAttr e.attrs f (dictSet (current.getD []) lang s) } := by
  unfold set_translation_st at h
  cases hc : lookupAttr e.attrs f with
  | none => rw [hc] at h; simp at h
  | some current =>
    rw [hc] at h
    dsimp only at h
    by_cases hl : lang ∈ SUPPORTED_LANGUAGES
    · cases v with
      | nonStr => simp [hl] at h
      | str s =>
        simp [hl] at h
        exact ⟨current, s, rfl, hl, rfl, h.symm⟩
    · simp [hl] at h

lemma set_translation_st_error_snd (e : Entity) (f lang : String) (v : PyValue)
    (err : PyError) (h : (set_translation_st e f lang v).1 = Except.error err) :
    (set_translation_st e f lang v).2 = e := by
  unfold set_translation_st at h ⊢
  cases hc : lookupAttr e.attrs f with
  | none => rfl
  | some current =>
    rw [hc] at h
    dsimp only at h ⊢
    by_cases hl : lang ∈ SUPPORTED_LANGUAGES
    · cases v with
      | nonStr => simp [hl]
      | str s => simp [hl] at h
    · simp [hl]

/-! ### Claim theorems -/

/-- C1: Round-trip — for every entity with a recognized translatable field,
after a successful `set_translation(field, L, V)`, regardless of the field's
prior contents, `get_translation(field, L, L)` returns exactly `V` (and reads
the updated entity without changing it). -/
theorem set_get_round_trip (e e2 : Entity) (f L V : String)
    (h : set_translation_st e f L (PyValue.str V) = (Except.ok (), e2)) :
    get_translation_st e2 f L L = (Except.ok (some V), e2) := by
  obtain ⟨current, s, hc, hl, hv, he2⟩ := set_translation_st_ok e e2 f L (PyValue.str V) h
  injection hv with hs
  subst hs
  subst he2
  have hl2 := lookupAttr_updateAttr_self e.attrs f (dictSet (current.getD []) L V) current hc
  have hne : (dictSet (current.getD []) L V).isEmpty = false := by
    cases hd : dictSet (current.getD []) L V with
    | nil => exact absurd hd (dictSet_ne_nil _ _ _)
    | cons p r => rfl
  have hget := dictGet?_dictSet_self (current.getD []) L V
  simp [get_translation_st, hl2, hne, hget]

/-- Witness for C1 at a concrete entity: setting `en` on a fresh field and
reading it back yields the value just written. -/
theorem set_get_round_trip_witness :
    get_translation_st
        (Entity.mk [("title_i18n", some [("en", "hello")])] "id-0" 0 0 false none)
        "title_i18n" "en" "en"
      = (Except.ok (some "hello"),
         Entity.mk [("title_i18n", some [("en", "hello")])] "id-0" 0 0 false none) :=
  set_get_round_trip e0
    (Entity.mk [("title_i18n", some [("en", "hello")])] "id-0" 0 0 false none)
    "title_i18n" "en" "hello" rfl

/-- C8: Purity of get — `get_translation` never mutates the entity: the state
component of the call is exactly the input entity, for every field name and
every pair of language strings. -/
theorem get_translation_pure (e : Entity) (f lang fb : String) :
    (get_translation_st e f lang fb).2 = e :=
  get_translation_st_snd e f lang fb

/-- C9: Atomicity of set on error — whenever `set_translation` signals any
error, the entity is exactly as it was before the call. -/
theorem set_translation_atomic (e : Entity) (f lang : String) (v : PyValue)
    (err : PyError) (h : (set_translation_st e f lang v).1 = Except.error err) :
    (set_translation_st e f lang v).2 = e :=
  set_translation_st_error_snd e f lang v err h

/-- Witness for C9 at a concrete entity: an unsupported-language write fails
and leaves the entity unchanged. -/
theorem set_translation_atomic_witness :
    (set_translation_st e0 "title_i18n" "de" (PyValue.str "x")).1
        = Except.error (PyError.unsupportedLanguage "de") ∧
    (set_translation_st e0 "title_i18n" "de" (PyValue.str "x")).2 = e0 :=
  ⟨rfl, set_translation_atomic e0 "title_i18n" "de" (PyValue.str "x")
      (PyError.unsupportedLanguage "de") rfl⟩

/-- C10: RTL classification is total — `is_rtl_language` is a Bool-valued
function on all strings (so it can never signal a failure) and returns `true`
exactly on the fixed right-to-left subset `{fa, ar}`. -/
theorem is_rtl_language_classification (lang : String) :
    is_rtl_language lang = true ↔ (lang = "fa" ∨ lang = "ar") := by
  simp [is_rtl_language, RTL_LANGUAGES]

/-- C7: Frame of set — a successful `set_translation` leaves the id, the
audit timestamps, the tombstone pair and every other attribute untouched. -/
theorem set_translation_frame (e e2 : Entity) (f lang : String) (v : PyValue)
    (h : set_translation_st e f lang v = (Except.ok (), e2)) :
    e2.id = e.id ∧ e2.created_at = e.created_at ∧ e2.updated_at = e.updated_at ∧
    e2.is_deleted = e.is_deleted ∧ e2.deleted_at = e.deleted_at ∧
    ∀ g, g ≠ f → lookupAttr e2.attrs g = lookupAttr e.attrs g := by
  obtain ⟨current, s, hc, hl, hv, he2⟩ := set_translation_st_ok e e2 f lang v h
  subst he2
  exact ⟨rfl, rfl, rfl, rfl, rfl,
    fun g hg => lookupAttr_updateAttr_ne e.attrs f g (dictSet (current.getD []) lang s) hg⟩

/-- Witness for C7 at a concrete entity: writing `title_i18n` leaves the id
and the other field `desc_i18n` unchanged. -/
theorem set_translation_frame_witness :
    (set_translation_st e1 "title_i18n" "ar" (PyValue.str "X")).2.id = e1.id ∧
    lookupAttr (set_translation_st e1 "title_i18n" "ar" (PyValue.str "X")).2.attrs "desc_i18n"
      = lookupAttr e1.attrs "desc_i18n" := by
  have h := set_translation_frame e1
    (set_translation_st e1 "title_i18n" "ar" (PyValue.str "X")).2
    "title_i18n" "ar" (PyValue.str "X") rfl
  exact ⟨h.1, h.2.2.2.2.2 "desc_i18n" (by decide)⟩

/-- C2: Fallback ordering of get — for a recognized field, `get_translation`
returns the requested language's text when present, else the fallback
language's text when present, else one of the mapping's values when the
mapping is non-empty, and `None` when the mapping is absent or empty; it
never raises for missing data when the field exists. -/
theorem get_translation_fallback_order (e : Entity) (f lang fb : String)
    (content : Option Translations) (h : lookupAttr e.attrs f = some content) :
    ((content = none ∨ content = some []) →
      get_translation_st e f lang fb = (Except.ok none, e)) ∧
    (∀ d, content = some d →
      ((dictGet? d lang).isSome →
        get_translation_st e f lang fb = (Except.ok (dictGet? d lang), e)) ∧
      (dictGet? d lang = none → (dictGet? d fb).isSome →
        get_translation_st e f lang fb = (Except.ok (dictGet? d fb), e)) ∧
      (dictGet? d lang = none → dictGet? d fb = none → d ≠ [] →
        ∃ v, get_translation_st e f lang fb = (Except.ok (some v), e) ∧
          v ∈ dictValues d)) ∧
    (∃ r, get_translation_st e f lang fb = (Except.ok r, e)) := by
  refine ⟨?_, ?_, ?_⟩
  · rintro (hc | hc) <;> subst hc <;> simp [get_translation_st, h]
  · intro d hc
    subst hc
    refine ⟨?_, ?_, ?_⟩
    · intro hs
      have hne : d.isEmpty = false := by
        cases d with
        | nil => simp [dictGet?] at hs
        | cons p r => rfl
      simp [get_translation_st, h, hne, hs]
    · intro h1 h2
      have hne : d.isEmpty = false := by
        cases d with
        | nil => simp [dictGet?] at h2
        | cons p r => rfl
      simp [get_translation_st, h, hne, h1, h2]
    · intro h1 h2 hd
      cases d with
      | nil => exact absurd rfl hd
      | cons p r =>
        refine ⟨p.2, ?_, ?_⟩
        · simp [get_translation_st, h, h1, h2]
        · simp [dictValues]
  · cases hc : content with
    | none => exact ⟨none, by simp [get_translation_st, h, hc]⟩
    | some d =>
      subst hc
      by_cases hemp : d.isEmpty
      · exact ⟨none, by simp [get_translation_st, h, hemp]⟩
      · by_cases h1 : (dictGet? d lang).isSome
        · exact ⟨dictGet? d lang, by simp [get_translation_st, h, hemp, h1]⟩
        · by_cases h2 : (dictGet? d fb).isSome
          · exact ⟨dictGet? d fb, by
              simp [get_translation_st, h, hemp, h2]
              simp at h1
              simp [h1]⟩
          · exact ⟨d.head?.map Prod.snd, by
              simp at h1 h2
              simp [get_translation_st, h, hemp, h1, h2]⟩

/-- Witness for C2 at a concrete entity: the requested language is present
and its text is returned, with the entity unchanged. -/
theorem get_translation_fallback_order_witness :
    get_translation_st e1 "title_i18n" "fa" "en" = (Except.ok (some "B"), e1) :=
  ((get_translation_fallback_order e1 "title_i18n" "fa" "en"
      (some [("en", "A"), ("fa", "B")]) rfl).2.1
    [("en", "A"), ("fa", "B")] rfl).1 (by decide)

/-- C5: Last-resort tie-break — when a non-empty mapping contains neither the
requested nor the fallback language, get returns the value of the mapping's
first entry in insertion order; and insertion order makes that entry the
language first set for the field: the first write to an empty dict becomes
the head, and later writes never change the head's key. -/
theorem get_translation_last_resort (e : Entity) (f lang fb : String)
    (d : Translations) (h : lookupAttr e.attrs f = some (some d)) (hne : d ≠ [])
    (h1 : dictGet? d lang = none) (h2 : dictGet? d fb = none) :
    get_translation_st e f lang fb = (Except.ok (d.head?.map Prod.snd), e) ∧
    (∀ k v, dictSet [] k v = [(k, v)]) ∧
    (∀ d2 : Translations, ∀ k v, d2 ≠ [] →
      (dictSet d2 k v).head?.map Prod.fst = d2.head?.map Prod.fst) := by
  refine ⟨?_, fun k v => rfl, fun d2 k v hd2 => dictSet_head_key d2 k v hd2⟩
  have hne2 : d.isEmpty = false := by
    cases d with
    | nil => exact absurd rfl hne
    | cons p r => rfl
  simp [get_translation_st, h, hne2, h1, h2]

/-- Witness for C5 at a concrete entity: with `en` set first and `fa` second,
a request for `tr` with fallback `ar` returns the `en` value. -/
theorem get_translation_last_resort_witness :
    get_translation_st e1 "title_i18n" "tr" "ar" = (Except.ok (some "A"), e1) :=
  (get_translation_last_resort e1 "title_i18n" "tr" "ar" [("en", "A"), ("fa", "B")]
    rfl (by decide) (by decide) (by decide)).1

/-- C6: supportedLanguages — for a recognized field,
`get_supported_languages` returns exactly the language codes present in the
field's mapping; an absent or empty mapping yields the empty list; an
unrecognized field name signals FieldNotFound. -/
theorem get_supported_languages_spec (e : Entity) (f : String) :
    (∀ content, lookupAttr e.attrs f = some content →
      ((content = none ∨ content = some []) →
        get_supported_languages_st e f = (Except.ok [], e)) ∧
      (∀ d, content = some d → d ≠ [] →
        get_supported_languages_st e f = (Except.ok (dictKeys d), e))) ∧
    (lookupAttr e.attrs f = none →
      get_supported_languages_st e f = (Except.error (PyError.fieldNotFound f), e)) := by
  refine ⟨?_, ?_⟩
  · intro content h
    refine ⟨?_, ?_⟩
    · rintro (hc | hc) <;> subst hc <;> simp [get_supported_languages_st, h]
    · intro d hc hd
      subst hc
      have hne : d.isEmpty = false := by
        cases d with
        | nil => exact absurd rfl hd
        | cons p r => rfl
      simp [get_supported_languages_st, h, hne]
  · intro h
    simp [get_supported_languages_st, h]

/-- Witness for C6 at a concrete entity: a field populated with `en` and `fa`
reports exactly those two language codes. -/
theorem get_supported_languages_spec_witness :
    get_supported_languages_st e1 "title_i18n" = (Except.ok ["en", "fa"], e1) :=
  ((get_supported_languages_spec e1 "title_i18n").1
      (some [("en", "A"), ("fa", "B")]) rfl).2
    [("en", "A"), ("fa", "B")] rfl (by decide)

/-- C3: Validation of set, raises-iff — `set_translation` signals
FieldNotFound exactly when the field is unrecognized; for a recognized field
it signals UnsupportedLanguage exactly when the language is outside
`SUPPORTED_LANGUAGES`; for a recognized field and supported language it
signals InvalidValue exactly when the value is not a string; and otherwise it
succeeds.  Every failure is returned to the caller as the call's result. -/
theorem set_translation_raises_iff (e : Entity) (f lang : String) (v : PyValue) :
    ((set_translation_st e f lang v).1 = Except.error (PyError.fieldNotFound f) ↔
      lookupAttr e.attrs f = none) ∧
    (lookupAttr e.attrs f ≠ none →
      ((set_translation_st e f lang v).1 = Except.error (PyError.unsupportedLanguage lang) ↔
        lang ∉ SUPPORTED_LANGUAGES)) ∧
    (lookupAttr e.attrs f ≠ none → lang ∈ SUPPORTED_LANGUAGES →
      ((set_translation_st e f lang v).1 = Except.error PyError.invalidValue ↔
        v = PyValue.nonStr)) ∧
    (lookupAttr e.attrs f ≠ none → lang ∈ SUPPORTED_LANGUAGES → v ≠ PyValue.nonStr →
      ∃ e2, set_translation_st e f lang v = (Except.ok (), e2)) := by
  refine ⟨?_, ?_, ?_, ?_⟩
  · cases hc : lookupAttr e.attrs f with
    | none => simp [set_translation_st, hc]
    | some current =>
      by_cases hl : lang ∈ SUPPORTED_LANGUAGES
      · cases v <;> simp [set_translation_st, hc, hl]
      · simp [set_translation_st, hc, hl]
  · intro hne
    cases hc : lookupAttr e.attrs f with
    | none => exact absurd hc hne
    | some current =>
      by_cases hl : lang ∈ SUPPORTED_LANGUAGES
      · cases v <;> simp [set_translation_st, hc, hl]
      · simp [set_translation_st, hc, hl]
  · intro hne hl
    cases hc : lookupAttr e.attrs f with
    | none => exact absurd hc hne
    | some current => cases v <;> simp [set_translation_st, hc, hl]
  · intro hne hl hv
    cases hc : lookupAttr e.attrs f with
    | none => exact absurd hc hne
    | some current =>
      cases v with
      | nonStr => exact absurd rfl hv
      | str s =>
        exact ⟨{ e with attrs := updateAttr e.attrs f (dictSet (current.getD []) lang s) },
          by simp [set_translation_st, hc, hl]⟩

/-- Witness for C3 at concrete inputs: an unrecognized field yields
FieldNotFound, and for a recognized field with a supported language and a
string value the call succeeds. -/
theorem set_translation_raises_iff_witness :
    (set_translation_st e0 "nonexistent_field" "en" (PyValue.str "x")).1
        = Except.error (PyError.fieldNotFound "nonexistent_field") ∧
    (∃ e2, set_translation_st e0 "title_i18n" "en" (PyValue.str "x") = (Except.ok (), e2)) :=
  ⟨(set_translation_raises_iff e0 "nonexistent_field" "en" (PyValue.str "x")).1.mpr rfl,
   (set_translation_raises_iff e0 "title_i18n" "en" (PyValue.str "x")).2.2.2
     (by decide) (by decide) (by decide)⟩

/-- Helper for C4: a set call (successful or failing, on any field) preserves
the supported-key invariant of a field. -/
lemma set_preserves_fieldKeysSupported (e : Entity) (f g lang : String) (v : PyValue)
    (hinv : fieldKeysSupported e f) :
    fieldKeysSupported (set_translation_st e g lang v).2 f := by
  unfold set_translation_st
  cases hc : lookupAttr e.attrs g with
  | none => exact hinv
  | some current =>
    dsimp only
    by_cases hl : lang ∈ SUPPORTED_LANGUAGES
    · cases v with
      | nonStr => simpa [hl] using hinv
      | str s =>
        simp only [hl, if_true]
        intro d hd k hk
        by_cases hgf : g = f
        · subst hgf
          rw [show ({ e with attrs := updateAttr e.attrs g (dictSet (current.getD []) lang s) } : Entity).attrs
                = updateAttr e.attrs g (dictSet (current.getD []) lang s) from rfl,
              lookupAttr_updateAttr_self e.attrs g (dictSet (current.getD []) lang s) current hc] at hd
          have hd2 : d = dictSet (current.getD []) lang s := by
            injection hd with hd1
            injection hd1 with hd2
            exact hd2.symm
          subst hd2
          rcases mem_dictKeys_dictSet (current.getD []) lang s k hk with hk2 | hk2
          · cases current with
            | none => simp [dictKeys] at hk2
            | some d0 => exact hinv d0 hc k hk2
          · subst hk2
            exact hl
        · rw [show ({ e with attrs := updateAttr e.attrs g (dictSet (current.getD []) lang s) } : Entity).attrs
                = updateAttr e.attrs g (dictSet (current.getD []) lang s) from rfl,
              lookupAttr_updateAttr_ne e.attrs g f (dictSet (current.getD []) lang s)
                (fun hh => hgf hh.symm)] at hd
          exact hinv d hd k hk
    · simpa [hl] using hinv

/-- Helper for C4: every single API call preserves the supported-key
invariant of a field. -/
lemma applyOp_preserves_fieldKeysSupported (e : Entity) (f : String) (op : Op)
    (hinv : fieldKeysSupported e f) : fieldKeysSupported (applyOp e op) f := by
  cases op with
  | setOp g lang v => exact set_preserves_fieldKeysSupported e f g lang v hinv
  | getOp g lang fb => simpa [applyOp, get_translation_st_snd] using hinv
  | langsOp g => simpa [applyOp, get_supported_languages_st_snd] using hinv

/-- Helper for C4: a sequence of API calls preserves the supported-key
invariant of a field. -/
lemma runOps_preserves_fieldKeysSupported (e : Entity) (f : String) (ops : List Op)
    (hinv : fieldKeysSupported e f) : fieldKeysSupported (runOps e ops) f := by
  induction ops generalizing e with
  | nil => exact hinv
  | cons op rest ih =>
    rw [runOps]
    exact ih (applyOp e op) (applyOp_preserves_fieldKeysSupported e f op hinv)

/-- C4: Supported-key invariant — starting from an absent or empty field
mapping, after any sequence of set/get/supportedLanguages calls, every key
present in the field's mapping belongs to `SUPPORTED_LANGUAGES` (no
completeness required: the conclusion allows any subset of keys). -/
theorem supported_key_invariant (e : Entity) (f : String) (ops : List Op)
    (h : lookupAttr e.attrs f = some none ∨ lookupAttr e.attrs f = some (some [])) :
    ∀ d, lookupAttr (runOps e ops).attrs f = some (some d) →
      ∀ k ∈ dictKeys d, k ∈ SUPPORTED_LANGUAGES := by
  have hinv : fieldKeysSupported e f := by
    intro d hd k hk
    rcases h with h | h
    · rw [h] at hd
      simp at hd
    · rw [h] at hd
      have hd2 : d = [] := by
        injection hd with hd1
        injection hd1 with hd2
        exact hd2.symm
      subst hd2
      simp [dictKeys] at hk
  exact runOps_preserves_fieldKeysSupported e f ops hinv

/-- Witness for C4 at a concrete entity: after one successful write of `en`
to a fresh field, the key just found in the mapping is a supported
language. -/
theorem supported_key_invariant_witness :
    lookupAttr e0.attrs "title_i18n" = some none ∧ "en" ∈ SUPPORTED_LANGUAGES :=
  ⟨rfl, supported_key_invariant e0 "title_i18n"
    [Op.setOp "title_i18n" "en" (PyValue.str "A")] (Or.inl rfl)
    [("en", "A")] (by decide) "en" (by decide)⟩
